import Mathlib

/-!
Verification development for the markup-ingestion core of the `saba` browser
engine (files `renderer/html/attribute.rs`, `renderer/html/token.rs`,
`renderer/dom/node.rs`, `renderer/dom/parser.rs`).

The Rust code is shallowly embedded: `Vec<char>` becomes `List Char`,
`String` stays `String` (a list of characters), the `Rc<RefCell<Node>>`
graph becomes an arena (`List Node` indexed by `Nat` ids, index 0 = the
document node owned by `Window`), and `Iterator::next` / `construct_tree`
loops become fuel-indexed step functions.  Places where the Rust program
panics (out-of-bounds indexing, assertion failures, `expect`) are modelled
by an explicit `panic` outcome; fuel exhaustion is a separate `stuck` /
`outOfFuel` outcome so that divergence is never conflated with a panic.
-/

namespace Saba

/-- Rust `char::is_ascii_uppercase`: `'A' <= c && c <= 'Z'`. -/
def isAsciiUpperB (c : Char) : Bool := 65 ≤ c.toNat && c.toNat ≤ 90

/-- Rust `char::is_ascii_lowercase`: `'a' <= c && c <= 'z'`. -/
def isAsciiLowerB (c : Char) : Bool := 97 ≤ c.toNat && c.toNat ≤ 122

/-- Rust `char::is_ascii_alphabetic`. -/
def isAsciiAlphaB (c : Char) : Bool := isAsciiUpperB c || isAsciiLowerB c

/-- Rust `char::to_ascii_lowercase`: add 32 to an ASCII uppercase letter. -/
def asciiLowerChar (c : Char) : Char :=
  if isAsciiUpperB c then Char.ofNat (c.toNat + 32) else c

/-- `renderer/html/attribute.rs`: a name/value pair built one char at a time. -/
structure Attribute where
  name : String
  value : String
  deriving Repr, DecidableEq

/-- `Attribute::new`: both strings empty. -/
def Attribute.new : Attribute := ⟨"", ""⟩

/-- `Attribute::add_name`. -/
def Attribute.addName (a : Attribute) (c : Char) : Attribute :=
  { a with name := a.name.push c }

/-- `Attribute::add_value`. -/
def Attribute.addValue (a : Attribute) (c : Char) : Attribute :=
  { a with value := a.value.push c }

/-- `renderer/html/token.rs` `HtmlToken`. -/
inductive HtmlToken where
  | StartTag (tag : String) (selfClosing : Bool) (attributes : List Attribute)
  | EndTag (tag : String)
  | Char (c : Char)
  | EOF
  deriving Repr, DecidableEq

/-- `renderer/html/token.rs` `State`: the tokenizer state machine. -/
inductive State where
  | Data
  | TagOpen
  | EndTagOpen
  | TagName
  | BeforeAttributeName
  | AttributeName
  | AfterAttributeName
  | BeforeAttributeValue
  | AttributeValueDoubleQuoted
  | AttributeValueSingleQuoted
  | AttributeValueUnquoted
  | AfterAttributeValueQuoted
  | SelfClosingStartTag
  | ScriptData
  | ScriptDataLessThanSign
  | ScriptDataEndTagOpen
  | ScriptDataEndTagName
  | TemporaryBuffer
  deriving Repr, DecidableEq

/-- `HtmlTokenizer` struct. -/
structure HtmlTokenizer where
  state : State
  pos : Nat
  reconsume : Bool
  latestToken : Option HtmlToken
  input : List Char
  buf : String
  deriving Repr, DecidableEq

/-- `HtmlTokenizer::new`. -/
def HtmlTokenizer.new (html : String) : HtmlTokenizer :=
  ⟨State.Data, 0, false, none, html.data, ""⟩

/-- `HtmlTokenizer::is_eof`: `self.pos > self.input.len()` (note `>`, not `>=`). -/
def HtmlTokenizer.isEof (tk : HtmlTokenizer) : Bool :=
  decide (tk.pos > tk.input.length)

/-- The character fetch at the top of the `Iterator::next` loop:
`reconsume_input` rereads `input[pos - 1]`, `consume_next_input` reads
`input[pos]` and increments `pos`.  Both index the vector without a bounds
check; `none` models the resulting Rust panic. -/
def getChar (tk : HtmlTokenizer) : Option (Char × HtmlTokenizer) :=
  if tk.reconsume then
    if tk.pos = 0 then none
    else
      match tk.input[tk.pos - 1]? with
      | some c => some (c, { tk with reconsume := false })
      | none => none
  else
    match tk.input[tk.pos]? with
    | some c => some (c, { tk with pos := tk.pos + 1 })
    | none => none

/-- `HtmlTokenizer::create_tag`. -/
def createTag (tk : HtmlTokenizer) (startTagToken : Bool) : HtmlTokenizer :=
  if startTagToken then
    { tk with latestToken := some (HtmlToken.StartTag "" false []) }
  else
    { tk with latestToken := some (HtmlToken.EndTag "") }

/-- `HtmlTokenizer::take_latest_token`; `none` models the `assert!` failure
when `latest_token` is `None`. -/
def takeLatestToken (tk : HtmlTokenizer) : Option (HtmlToken × HtmlTokenizer) :=
  match tk.latestToken with
  | some t => some (t, { tk with latestToken := none })
  | none => none

/-- `HtmlTokenizer::append_tag_name`; `none` models the panics (no latest
token, or a latest token that is neither a start nor an end tag). -/
def appendTagName (tk : HtmlTokenizer) (c : Char) : Option HtmlTokenizer :=
  match tk.latestToken with
  | some (HtmlToken.StartTag tag sc attrs) =>
      some { tk with latestToken := some (HtmlToken.StartTag (tag.push c) sc attrs) }
  | some (HtmlToken.EndTag tag) =>
      some { tk with latestToken := some (HtmlToken.EndTag (tag.push c)) }
  | _ => none

/-- `HtmlTokenizer::start_new_attribute`; `none` models the panics. -/
def startNewAttribute (tk : HtmlTokenizer) : Option HtmlTokenizer :=
  match tk.latestToken with
  | some (HtmlToken.StartTag tag sc attrs) =>
      some { tk with latestToken := some (HtmlToken.StartTag tag sc (attrs ++ [Attribute.new])) }
  | _ => none

/-- Update the last attribute of the list (`attributes[len - 1]`);
`none` when the list is empty (`assert!(len > 0)` failure). -/
def appendAttrLast (c : Char) (isName : Bool) : List Attribute → Option (List Attribute)
  | [] => none
  | [a] => some [if isName then a.addName c else a.addValue c]
  | a :: b :: rest =>
      match appendAttrLast c isName (b :: rest) with
      | some l => some (a :: l)
      | none => none

/-- `HtmlTokenizer::append_attribute`. -/
def appendAttribute (tk : HtmlTokenizer) (c : Char) (isName : Bool) : Option HtmlTokenizer :=
  match tk.latestToken with
  | some (HtmlToken.StartTag tag sc attrs) =>
      match appendAttrLast c isName attrs with
      | some attrs => some { tk with latestToken := some (HtmlToken.StartTag tag sc attrs) }
      | none => none
  | _ => none

/-- `HtmlTokenizer::set_self_closing_flag`. -/
def setSelfClosingFlag (tk : HtmlTokenizer) : Option HtmlTokenizer :=
  match tk.latestToken with
  | some (HtmlToken.StartTag tag _ attrs) =>
      some { tk with latestToken := some (HtmlToken.StartTag tag true attrs) }
  | _ => none

/-- Result of one iteration of the `Iterator::next` loop body. -/
inductive TokStepRes where
  | cont (tk : HtmlTokenizer)
  | emit (t : HtmlToken) (tk : HtmlTokenizer)
  | panic
  deriving Repr, DecidableEq

/-- One iteration of the `loop` body in `Iterator::next` after the current
character `c` has been fetched (so `pos`/`reconsume` are already updated in
`tk`).  Follows the `match self.state` in `token.rs` branch for branch. -/
def tokStep (c : Char) (tk : HtmlTokenizer) : TokStepRes :=
  match tk.state with
  | State.Data =>
      if c = '<' then .cont { tk with state := State.TagOpen }
      else if tk.isEof then .emit HtmlToken.EOF tk
      else .emit (HtmlToken.Char c) tk
  | State.TagOpen =>
      if c = '/' then .cont { tk with state := State.EndTagOpen }
      else if isAsciiAlphaB c then
        .cont (createTag { tk with reconsume := true, state := State.TagName } true)
      else if tk.isEof then .emit HtmlToken.EOF tk
      else .cont { tk with reconsume := true, state := State.Data }
  | State.EndTagOpen =>
      if tk.isEof then .emit HtmlToken.EOF tk
      else if isAsciiAlphaB c then
        .cont (createTag { tk with reconsume := true, state := State.TagName } false)
      else .cont tk
  | State.TagName =>
      if c = ' ' then .cont { tk with state := State.BeforeAttributeName }
      else if c = '/' then .cont { tk with state := State.SelfClosingStartTag }
      else if c = '>' then
        match takeLatestToken { tk with state := State.Data } with
        | some (t, tk) => .emit t tk
        | none => .panic
      else if isAsciiUpperB c then
        match appendTagName tk (asciiLowerChar c) with
        | some tk => .cont tk
        | none => .panic
      else if tk.isEof then .emit HtmlToken.EOF tk
      else
        match appendTagName tk c with
        | some tk => .cont tk
        | none => .panic
  | State.BeforeAttributeName =>
      if c = '/' ∨ c = '>' ∨ tk.isEof then
        .cont { tk with reconsume := true, state := State.AfterAttributeName }
      else
        match startNewAttribute { tk with reconsume := true, state := State.AttributeName } with
        | some tk => .cont tk
        | none => .panic
  | State.AttributeName =>
      if c = ' ' ∨ c = '/' ∨ tk.isEof then
        .cont { tk with reconsume := false, state := State.AfterAttributeName }
      else if c = '=' then .cont { tk with state := State.BeforeAttributeValue }
      else
        match appendAttribute tk (asciiLowerChar c) true with
        | some tk => .cont tk
        | none => .panic
  | State.AfterAttributeName =>
      if c = ' ' then .cont tk
      else if c = '/' then .cont { tk with state := State.SelfClosingStartTag }
      else if c = '=' then .cont { tk with state := State.BeforeAttributeValue }
      else if c = '>' then
        match takeLatestToken { tk with state := State.Data } with
        | some (t, tk) => .emit t tk
        | none => .panic
      else if tk.isEof then .emit HtmlToken.EOF tk
      else
        match startNewAttribute { tk with reconsume := true, state := State.AttributeName } with
        | some tk => .cont tk
        | none => .panic
  | State.BeforeAttributeValue =>
      if c = ' ' then .cont tk
      else if c = '"' then .cont { tk with state := State.AttributeValueDoubleQuoted }
      else if c = '\'' then .cont { tk with state := State.AttributeValueSingleQuoted }
      else .cont { tk with reconsume := true, state := State.AttributeValueUnquoted }
  | State.AttributeValueDoubleQuoted =>
      if c = '"' then .cont { tk with state := State.AfterAttributeValueQuoted }
      else if tk.isEof then .emit HtmlToken.EOF tk
      else
        match appendAttribute tk c false with
        | some tk => .cont tk
        | none => .panic
  | State.AttributeValueSingleQuoted =>
      if c = '\'' then .cont { tk with state := State.AfterAttributeValueQuoted }
      else if tk.isEof then .emit HtmlToken.EOF tk
      else
        match appendAttribute tk c false with
        | some tk => .cont tk
        | none => .panic
  | State.AttributeValueUnquoted =>
      if c = ' ' then .cont { tk with state := State.BeforeAttributeName }
      else if c = '>' then
        match takeLatestToken { tk with state := State.Data } with
        | some (t, tk) => .emit t tk
        | none => .panic
      else if tk.isEof then .emit HtmlToken.EOF tk
      else
        match appendAttribute tk c false with
        | some tk => .cont tk
        | none => .panic
  | State.AfterAttributeValueQuoted =>
      if c = ' ' then .cont { tk with state := State.BeforeAttributeName }
      else if c = '/' then .cont { tk with state := State.SelfClosingStartTag }
      else if c = '>' then
        match takeLatestToken { tk with state := State.Data } with
        | some (t, tk) => .emit t tk
        | none => .panic
      else if tk.isEof then .emit HtmlToken.EOF tk
      else .cont { tk with reconsume := true, state := State.BeforeAttributeValue }
  | State.SelfClosingStartTag =>
      if c = '>' then
        match setSelfClosingFlag tk with
        | some tk =>
          match takeLatestToken { tk with state := State.Data } with
          | some (t, tk) => .emit t tk
          | none => .panic
        | none => .panic
      else if tk.isEof then .emit HtmlToken.EOF tk
      else .cont tk
  | State.ScriptData =>
      if c = '<' then .cont { tk with state := State.ScriptDataLessThanSign }
      else if tk.isEof then .emit HtmlToken.EOF tk
      else .emit (HtmlToken.Char c) tk
  | State.ScriptDataLessThanSign =>
      if c = '/' then .cont { tk with buf := "", state := State.ScriptDataEndTagOpen }
      else .emit (HtmlToken.Char '<') { tk with reconsume := true, state := State.ScriptData }
  | State.ScriptDataEndTagOpen =>
      if isAsciiAlphaB c then
        .cont (createTag { tk with reconsume := true, state := State.ScriptDataEndTagName } false)
      else .emit (HtmlToken.Char '<') { tk with reconsume := true, state := State.ScriptData }
  | State.ScriptDataEndTagName =>
      if c = '>' then
        match takeLatestToken { tk with state := State.Data } with
        | some (t, tk) => .emit t tk
        | none => .panic
      else if isAsciiAlphaB c then
        match appendTagName { tk with buf := tk.buf.push c } (asciiLowerChar c) with
        | some tk => .cont tk
        | none => .panic
      else
        .cont { tk with state := State.TemporaryBuffer, buf := ("</" ++ tk.buf).push c }
  | State.TemporaryBuffer =>
      if tk.buf = "" then .cont { tk with reconsume := true, state := State.ScriptData }
      else
        match tk.buf.data.head? with
        | some c0 =>
            .emit (HtmlToken.Char c0) { tk with reconsume := true, buf := ⟨tk.buf.data.drop 1⟩ }
        | none => .panic

/-- Result of a call to `Iterator::next`. -/
inductive NextRes where
  | none
  | emit (t : HtmlToken) (tk : HtmlTokenizer)
  | panic
  | stuck
  deriving Repr, DecidableEq

/-- The `loop` of `Iterator::next`, fuel-indexed.  `stuck` is a modelling
artifact: the fuel passed by `HtmlTokenizer.next` below dominates the number
of iterations any single Rust `next` call can make. -/
def nextl : Nat → HtmlTokenizer → NextRes
  | 0, _ => .stuck
  | fuel + 1, tk =>
    match getChar tk with
    | none => .panic
    | some (c, tk) =>
      match tokStep c tk with
      | .cont tk => nextl fuel tk
      | .emit t tk => .emit t tk
      | .panic => .panic

/-- `Iterator::next for HtmlTokenizer`: returns `none` when
`pos >= input.len()`, otherwise runs the loop. -/
def HtmlTokenizer.next (tk : HtmlTokenizer) : NextRes :=
  if tk.pos ≥ tk.input.length then .none
  else nextl (3 * (tk.input.length + 2)) tk

/-- How a run of the token iterator ended. -/
inductive TermKind where
  | ended
  | panicked
  | stuck
  deriving Repr, DecidableEq

/-- Collect the whole token stream of a tokenizer (driving `next` repeatedly,
as a `for` loop over the iterator would). -/
def collect : Nat → HtmlTokenizer → List HtmlToken × TermKind
  | 0, _ => ([], TermKind.stuck)
  | fuel + 1, tk =>
    match tk.next with
    | NextRes.none => ([], TermKind.ended)
    | NextRes.panic => ([], TermKind.panicked)
    | NextRes.stuck => ([], TermKind.stuck)
    | NextRes.emit t tk =>
      let r := collect fuel tk
      (t :: r.1, r.2)

/-- The token stream of an input string. -/
def tokenStream (s : String) (fuel : Nat) : List HtmlToken × TermKind :=
  collect fuel (HtmlTokenizer.new s)

/-- `renderer/dom/node.rs` `ElementKind`: the closed enumeration. -/
inductive ElementKind where
  | Html
  | Head
  | Style
  | Script
  | Body
  | P
  | H1
  | H2
  | A
  deriving Repr, DecidableEq

/-- `ElementKind::from_str`. -/
def ElementKind.fromStr (s : String) : Except String ElementKind :=
  if s = "html" then .ok .Html
  else if s = "head" then .ok .Head
  else if s = "style" then .ok .Style
  else if s = "script" then .ok .Script
  else if s = "body" then .ok .Body
  else if s = "p" then .ok .P
  else if s = "h1" then .ok .H1
  else if s = "h2" then .ok .H2
  else if s = "a" then .ok .A
  else .error ("Unimplemented element name " ++ s)

/-- `Element` struct. -/
structure Element where
  kind : ElementKind
  attributes : List Attribute
  deriving Repr, DecidableEq

/-- `Element::new`, which calls `expect` on `ElementKind::from_str`:
`none` models the construction-time panic on an unrecognized name. -/
def Element.mk? (elementName : String) (attributes : List Attribute) : Option Element :=
  match ElementKind.fromStr elementName with
  | .ok k => some ⟨k, attributes⟩
  | .error _ => none

/-- `NodeKind`. -/
inductive NodeKind where
  | Document
  | Element (e : Saba.Element)
  | Text (s : String)
  deriving Repr, DecidableEq

/-- Is this kind a `Text`? -/
def NodeKind.isTextB : NodeKind → Bool
  | NodeKind.Text _ => true
  | _ => false

/-- `Node`: the five tree links, with nodes identified by arena ids.
Strong (`Option<Rc>`) and weak (`Weak`) references both become
`Option Nat`; `Weak::new()` is `none`.  The `window` back-reference of the
Rust struct carries no tree information and is not modelled. -/
structure Node where
  kind : NodeKind
  parent : Option Nat
  firstChild : Option Nat
  lastChild : Option Nat
  prevSibling : Option Nat
  nextSibling : Option Nat
  deriving Repr, DecidableEq

/-- `Node::new`: a detached node. -/
def Node.new (kind : NodeKind) : Node :=
  ⟨kind, none, none, none, none, none⟩

/-- `Node::element_kind`. -/
def Node.elementKind (n : Node) : Option ElementKind :=
  match n.kind with
  | NodeKind.Element e => some e.kind
  | _ => none

/-- `renderer/dom/parser.rs` `InsertionMode`. -/
inductive InsertionMode where
  | Initial
  | BeforeHtml
  | BeforeHead
  | InHead
  | AfterHead
  | InBody
  | Text
  | AfterBody
  | AfterAfterBody
  deriving Repr, DecidableEq

/-- `HtmlParser` plus the `Window`: the arena `store` holds every node,
index 0 being the `Document` node owned by the `Window`. -/
structure HtmlParser where
  store : List Node
  mode : InsertionMode
  originalInsertionMode : InsertionMode
  stack : List Nat
  t : HtmlTokenizer
  deriving Repr, DecidableEq

/-- `HtmlParser::new` (with `Window::new` creating the document node). -/
def HtmlParser.new (t : HtmlTokenizer) : HtmlParser :=
  ⟨[Node.new NodeKind.Document], InsertionMode.Initial, InsertionMode.Initial, [], t⟩

/-- Apply a field update to the node with id `i` (a `borrow_mut` setter). -/
def modifyNode (store : List Node) (i : Nat) (f : Node → Node) : List Node :=
  match store[i]? with
  | some n => store.set i (f n)
  | none => store

/-- The element kind of the node with id `i`. -/
def kindOf (store : List Node) (i : Nat) : Option ElementKind :=
  match store[i]? with
  | some n => n.elementKind
  | none => none

/-- The `loop` inside `insert_element` walking `next_sibling` links to the
last sibling.  Fuel-indexed; the fuel passed below (arena size + 1) covers
every acyclic sibling chain, which is the only shape the constructor builds. -/
def lastSibling : Nat → List Node → Nat → Option Nat
  | 0, _, _ => none
  | fuel + 1, store, i =>
    match store[i]? with
    | none => none
    | some n =>
      match n.nextSibling with
      | none => some i
      | some j => lastSibling fuel store j

/-- `HtmlParser::insert_element`.  `none` models a panic
(`Element::new`'s `expect` on an unrecognized tag name). -/
def insertElement (p : HtmlParser) (tag : String) (attrs : List Attribute) : Option HtmlParser :=
  let current := (p.stack.getLast?).getD 0
  match Element.mk? tag attrs with
  | none => none
  | some elem =>
    let n := p.store.length
    let store0 := p.store ++ [Node.new (NodeKind.Element elem)]
    match (p.store[current]?).bind (·.firstChild) with
    | some fc =>
      match lastSibling (store0.length + 1) store0 fc with
      | none => none
      | some ls =>
        let store1 := modifyNode store0 ls (fun m => { m with nextSibling := some n })
        let store2 := modifyNode store1 n (fun m => { m with prevSibling := some ls })
        let store3 := modifyNode store2 current (fun m => { m with lastChild := some n })
        let store4 := modifyNode store3 n (fun m => { m with parent := some current })
        some { p with store := store4, stack := p.stack ++ [n] }
    | none =>
      let store1 := modifyNode store0 current (fun m => { m with firstChild := some n })
      let store2 := modifyNode store1 current (fun m => { m with lastChild := some n })
      let store3 := modifyNode store2 n (fun m => { m with parent := some current })
      some { p with store := store3, stack := p.stack ++ [n] }

/-- `HtmlParser::pop_current_node`. -/
def popCurrentNode (p : HtmlParser) (k : ElementKind) : Bool × HtmlParser :=
  match p.stack.getLast? with
  | none => (false, p)
  | some e =>
    if kindOf p.store e = some k then (true, { p with stack := p.stack.dropLast })
    else (false, p)

/-- `HtmlParser::contain_in_stack`. -/
def containInStack (p : HtmlParser) (k : ElementKind) : Bool :=
  p.stack.any (fun e => kindOf p.store e = some k)

/-- The pop loop of `pop_until`, on the reversed stack (head = top). -/
def popUntilRev (store : List Node) (k : ElementKind) : List Nat → List Nat
  | [] => []
  | e :: rest => if kindOf store e = some k then rest else popUntilRev store k rest

/-- `HtmlParser::pop_until`: `none` models the `assert!` failure when the
stack does not contain an element of kind `k`. -/
def popUntil (p : HtmlParser) (k : ElementKind) : Option HtmlParser :=
  if containInStack p k then
    some { p with stack := (popUntilRev p.store k p.stack.reverse).reverse }
  else none

/-- `HtmlParser::insert_char`, translated line for line: merge into a `Text`
node at the top of the stack; otherwise drop whitespace; otherwise create a
new `Text` node and hook it in as the next sibling of the current node's
FIRST child (this is the quirk claim C10 is about). -/
def insertChar (p : HtmlParser) (c : Char) : HtmlParser :=
  match p.stack.getLast? with
  | none => p
  | some cur =>
    match p.store[cur]? with
    | none => p
    | some curNode =>
      match curNode.kind with
      | NodeKind.Text s =>
          { p with store := p.store.set cur { curNode with kind := NodeKind.Text (s.push c) } }
      | _ =>
        if c = '\n' ∨ c = ' ' then p
        else
          let n := p.store.length
          let store0 := p.store ++ [Node.new (NodeKind.Text (String.push "" c))]
          match curNode.firstChild with
          | some fc =>
            let store1 := modifyNode store0 fc (fun m => { m with nextSibling := some n })
            let store2 := modifyNode store1 n (fun m => { m with prevSibling := some fc })
            let store3 := modifyNode store2 cur (fun m => { m with lastChild := some n })
            let store4 := modifyNode store3 n (fun m => { m with parent := some cur })
            { p with store := store4, stack := p.stack ++ [n] }
          | none =>
            let store1 := modifyNode store0 cur (fun m => { m with firstChild := some n })
            let store2 := modifyNode store1 cur (fun m => { m with lastChild := some n })
            let store3 := modifyNode store2 n (fun m => { m with parent := some cur })
            { p with store := store3, stack := p.stack ++ [n] }

/-- Result of one iteration of the `while token.is_some()` loop of
`construct_tree`. -/
inductive StepRes where
  | cont (p : HtmlParser) (tok : Option HtmlToken)
  | ret (p : HtmlParser)
  | panic
  | stuck
  deriving Repr, DecidableEq

/-- `token = self.t.next()` followed by `k` on the updated parser. -/
def withNext (p : HtmlParser) (k : HtmlParser → Option HtmlToken → StepRes) : StepRes :=
  match p.t.next with
  | NextRes.none => k p none
  | NextRes.emit t tk => k { p with t := tk } (some t)
  | NextRes.panic => .panic
  | NextRes.stuck => .stuck

/-- `token = self.t.next(); continue`. -/
def skipToken (p : HtmlParser) : StepRes :=
  withNext p (fun p tok => .cont p tok)

/-- The fall-through tail of the `BeforeHead` arm: synthesize a `head`. -/
def beforeHeadFall (p : HtmlParser) (token : HtmlToken) : StepRes :=
  match insertElement p "head" [] with
  | none => .panic
  | some p => .cont { p with mode := InsertionMode.InHead } (some token)

/-- The fall-through tail of the `AfterHead` arm: synthesize a `body`. -/
def afterHeadFall (p : HtmlParser) (token : HtmlToken) : StepRes :=
  match insertElement p "body" [] with
  | none => .panic
  | some p => .cont { p with mode := InsertionMode.InBody } (some token)

/-- One iteration of the `while token.is_some()` loop of
`HtmlParser::construct_tree`, mode arm by mode arm. -/
def step (p : HtmlParser) (token : Option HtmlToken) : StepRes :=
  match token with
  | none => .ret p
  | some token =>
    match p.mode with
    | InsertionMode.Initial =>
      match token with
      | HtmlToken.Char _ => skipToken p
      | _ => .cont { p with mode := InsertionMode.BeforeHtml } (some token)
    | InsertionMode.BeforeHtml =>
      match token with
      | HtmlToken.Char c =>
        if c = ' ' ∨ c = '\n' then skipToken p
        else .cont p (some token)
      | HtmlToken.StartTag tag sc attrs =>
        if tag = "html" then
          match insertElement p tag attrs with
          | none => .panic
          | some p => withNext { p with mode := InsertionMode.BeforeHead } (fun p t => .cont p t)
        else .cont p (some (HtmlToken.StartTag tag sc attrs))
      | HtmlToken.EOF => .ret p
      | HtmlToken.EndTag tag => .cont p (some (HtmlToken.EndTag tag))
    | InsertionMode.BeforeHead =>
      match token with
      | HtmlToken.Char c =>
        if c = ' ' ∨ c = '\n' then skipToken p
        else beforeHeadFall p (HtmlToken.Char c)
      | HtmlToken.StartTag tag sc attrs =>
        if tag = "head" then
          match insertElement p tag attrs with
          | none => .panic
          | some p => withNext { p with mode := InsertionMode.InHead } (fun p t => .cont p t)
        else beforeHeadFall p (HtmlToken.StartTag tag sc attrs)
      | HtmlToken.EndTag tag => beforeHeadFall p (HtmlToken.EndTag tag)
      | HtmlToken.EOF => .ret p
    | InsertionMode.InHead =>
      match token with
      | HtmlToken.Char c =>
        if c = ' ' ∨ c = '\n' then skipToken (insertChar p c)
        else skipToken p
      | HtmlToken.StartTag tag sc attrs =>
        if tag = "style" ∨ tag = "script" then
          match insertElement p tag attrs with
          | none => .panic
          | some p =>
            withNext { p with originalInsertionMode := p.mode,
                              mode := InsertionMode.Text } (fun p t => .cont p t)
        else
          -- two consecutive (non-exclusive!) `if`s in the source: for
          -- `body` BOTH run, so `pop_until(Head)` is called twice.
          match (if tag = "body" then
                   match popUntil p ElementKind.Head with
                   | none => none
                   | some q => some { q with mode := InsertionMode.AfterHead }
                 else some p) with
          | none => .panic
          | some p1 =>
            if (ElementKind.fromStr tag).isOk then
              match popUntil p1 ElementKind.Head with
              | none => .panic
              | some p2 =>
                .cont { p2 with mode := InsertionMode.AfterHead }
                  (some (HtmlToken.StartTag tag sc attrs))
            else skipToken p1
      | HtmlToken.EndTag tag =>
        if tag = "head" then
          withNext { p with mode := InsertionMode.AfterHead } (fun p t =>
            match popUntil p ElementKind.Head with
            | none => .panic
            | some p => .cont p t)
        else skipToken p
      | HtmlToken.EOF => .ret p
    | InsertionMode.AfterHead =>
      match token with
      | HtmlToken.Char c =>
        if c = ' ' ∨ c = '\n' then skipToken (insertChar p c)
        else afterHeadFall p (HtmlToken.Char c)
      | HtmlToken.StartTag tag sc attrs =>
        if tag = "body" then
          match insertElement p tag attrs with
          | none => .panic
          | some p => withNext { p with mode := InsertionMode.InBody } (fun p t => .cont p t)
        else afterHeadFall p (HtmlToken.StartTag tag sc attrs)
      | HtmlToken.EndTag tag => afterHeadFall p (HtmlToken.EndTag tag)
      | HtmlToken.EOF => .ret p
    | InsertionMode.InBody =>
      match token with
      | HtmlToken.StartTag tag _ attrs =>
        if tag = "p" ∨ tag = "h1" ∨ tag = "h2" ∨ tag = "a" then
          match insertElement p tag attrs with
          | none => .panic
          | some p => skipToken p
        else skipToken p
      | HtmlToken.EndTag tag =>
        if tag = "body" then
          withNext { p with mode := InsertionMode.AfterBody } (fun p t =>
            if containInStack p ElementKind.Body then
              match popUntil p ElementKind.Body with
              | none => .panic
              | some p => .cont p t
            else .cont p t)
        else if tag = "html" then
          match popCurrentNode p ElementKind.Body with
          | (true, p) =>
            let p := { p with mode := InsertionMode.AfterBody }
            match popCurrentNode p ElementKind.Html with
            | (true, p) => .cont p (some (HtmlToken.EndTag tag))
            | (false, _) => .panic
          | (false, p) => skipToken p
        else if tag = "p" then
          withNext p (fun p t =>
            match popUntil p ElementKind.P with
            | none => .panic
            | some p => .cont p t)
        else if tag = "h1" ∨ tag = "h2" then
          match ElementKind.fromStr tag with
          | .error _ => .panic
          | .ok k =>
            withNext p (fun p t =>
              match popUntil p k with
              | none => .panic
              | some p => .cont p t)
        else if tag = "a" then
          withNext p (fun p t =>
            match popUntil p ElementKind.A with
            | none => .panic
            | some p => .cont p t)
        else skipToken p
      | HtmlToken.Char c => skipToken (insertChar p c)
      | HtmlToken.EOF => .ret p
    | InsertionMode.Text =>
      match token with
      | HtmlToken.EOF => .ret p
      | HtmlToken.EndTag tag =>
        if tag = "style" then
          match popUntil p ElementKind.Style with
          | none => .panic
          | some p => withNext { p with mode := p.originalInsertionMode } (fun p t => .cont p t)
        else if tag = "script" then
          match popUntil p ElementKind.Script with
          | none => .panic
          | some p => withNext { p with mode := p.originalInsertionMode } (fun p t => .cont p t)
        else .cont { p with mode := p.originalInsertionMode } (some (HtmlToken.EndTag tag))
      | HtmlToken.Char c => skipToken (insertChar p c)
      | HtmlToken.StartTag tag sc attrs =>
        .cont { p with mode := p.originalInsertionMode } (some (HtmlToken.StartTag tag sc attrs))
    | InsertionMode.AfterBody =>
      match token with
      | HtmlToken.Char _ => skipToken p
      | HtmlToken.EndTag tag =>
        if tag = "html" then
          withNext { p with mode := InsertionMode.AfterAfterBody } (fun p t => .cont p t)
        else .cont { p with mode := InsertionMode.InBody } (some (HtmlToken.EndTag tag))
      | HtmlToken.EOF => .ret p
      | HtmlToken.StartTag tag sc attrs =>
        .cont { p with mode := InsertionMode.InBody } (some (HtmlToken.StartTag tag sc attrs))
    | InsertionMode.AfterAfterBody =>
      match token with
      | HtmlToken.Char _ => skipToken p
      | HtmlToken.EOF => .ret p
      | HtmlToken.EndTag tag =>
        .cont { p with mode := InsertionMode.InBody } (some (HtmlToken.EndTag tag))
      | HtmlToken.StartTag tag sc attrs =>
        .cont { p with mode := InsertionMode.InBody } (some (HtmlToken.StartTag tag sc attrs))

/-- How a `construct_tree` call ends.  `.ok` carries the final parser, whose
`store` is the document tree reachable from the returned `Window`. -/
inductive POutcome where
  | ok (p : HtmlParser)
  | panic
  | stuck
  | outOfFuel
  deriving Repr, DecidableEq

/-- The `while token.is_some()` loop, fuel-indexed. -/
def runp : Nat → HtmlParser → Option HtmlToken → POutcome
  | 0, _, _ => .outOfFuel
  | fuel + 1, p, tok =>
    match step p tok with
    | StepRes.cont p tok => runp fuel p tok
    | StepRes.ret p => .ok p
    | StepRes.panic => .panic
    | StepRes.stuck => .stuck

/-- `HtmlParser::construct_tree` on an input string: build the parser over a
fresh tokenizer, fetch the first token, and run the loop. -/
def constructTree (html : String) (fuel : Nat) : POutcome :=
  let p := HtmlParser.new (HtmlTokenizer.new html)
  match p.t.next with
  | NextRes.none => runp fuel p none
  | NextRes.emit t tk => runp fuel { p with t := tk } (some t)
  | NextRes.panic => .panic
  | NextRes.stuck => .stuck

/-- The arena of a successful build. -/
def POutcome.storeOf : POutcome → Option (List Node)
  | POutcome.ok p => some p.store
  | _ => none

/-- Projections of the finished tree, `none` when the build failed or the
id is out of range. -/
def nodeAt (o : POutcome) (i : Nat) : Option Node :=
  o.storeOf.bind (fun s => s[i]?)

def kindAt (o : POutcome) (i : Nat) : Option NodeKind :=
  (nodeAt o i).map (·.kind)

def firstChildAt (o : POutcome) (i : Nat) : Option (Option Nat) :=
  (nodeAt o i).map (·.firstChild)

def nextSiblingAt (o : POutcome) (i : Nat) : Option (Option Nat) :=
  (nodeAt o i).map (·.nextSibling)

/-! ## Theorems -/

/-- If one loop iteration maps a parser/token pair to itself, the
`construct_tree` loop never returns, whatever the fuel. -/
theorem runp_fix (p : HtmlParser) (tok : Option HtmlToken)
    (h : step p tok = StepRes.cont p tok) :
    ∀ fuel, runp fuel p tok = POutcome.outOfFuel := by
  intro fuel
  induction fuel with
  | zero => rfl
  | succ n ih => simp only [runp, h]; exact ih

/-- The tokenizer state after `"<head>"` has been tokenized to one
`StartTag` token. -/
def c1tk : HtmlTokenizer := ⟨State.Data, 6, false, none, "<head>".data, ""⟩

/-- The spinning parser state reached from input `"<head>"`: mode
`BeforeHtml`, current token the unconsumed `<head>` start tag. -/
def c1p : HtmlParser :=
  ⟨[Node.new NodeKind.Document], InsertionMode.BeforeHtml, InsertionMode.Initial, [], c1tk⟩

/-- Claim C1: FALSE on the code (code bug).  `construct_tree` does NOT
terminate for every input: in the `BeforeHtml` mode a start tag other than
`html` is neither consumed nor does it change the mode, so the
`while token.is_some()` loop re-processes the same token forever.  On input
`"<head>"` the loop exhausts any amount of fuel. -/
theorem beforeHtml_unconsumed_token_loops_forever (fuel : Nat) :
    constructTree "<head>" fuel = POutcome.outOfFuel := by
  match fuel with
  | 0 => rfl
  | n + 1 =>
    have h1 : constructTree "<head>" (n + 1) =
        runp n c1p (some (HtmlToken.StartTag "head" false [])) := rfl
    rw [h1]
    exact runp_fix c1p (some (HtmlToken.StartTag "head" false [])) rfl n

/-- Claim C2: FALSE on the code (code bug).  On input `"<"` the tokenizer
does not yield `EOF`: after consuming `'<'` the loop calls
`consume_next_input`, which indexes `input[pos]` with `pos == input.len()`
and panics (out-of-bounds `Vec` indexing).  The `is_eof` guard
(`pos > input.len()`) can never fire first. -/
theorem tokenizer_panics_on_unterminated_tag :
    (HtmlTokenizer.new "<").next = NextRes.panic := rfl

/-- Claim C3: FALSE on the code (code bug).  In `InHead`, the `body`
start-tag branch and the recognized-element branch are two consecutive
non-exclusive `if`s, so for `<body>` BOTH run `pop_until(Head)`; the second
call's `assert!(contain_in_stack(Head))` fails (head was already popped) and
the parser panics instead of continuing in `AfterHead`. -/
theorem inHead_body_start_tag_panics :
    constructTree "<html><body>" 100 = POutcome.panic := rfl

/-- Claim C4: FALSE on the code (code bug).  Nothing ever switches the
tokenizer into the `ScriptData` state family (the parser has no access to
the tokenizer state, and within `token.rs` the family is only entered from
itself), so script content is tokenized in the ordinary `Data` family: in
`<script>a<b</script>` the `<` before `b` opens a tag, `</script` is
swallowed into that tag's name, and the stream ends in a bogus self-closing
`StartTag "b<"` — `<` is NOT re-emitted as a `Char` token and no
`EndTag "script"` appears. -/
theorem script_content_not_raw_text :
    tokenStream "<script>a<b</script>" 10 =
      ([HtmlToken.StartTag "script" false [], HtmlToken.Char 'a',
        HtmlToken.StartTag "b<" true []], TermKind.ended) := rfl

/-- Claim C6: building `"<html><head></head><body></body></html>"` yields
document → html → head, head's next sibling is body, and head and body are
both childless. -/
theorem constructTree_basic_document_shape :
    kindAt (constructTree "<html><head></head><body></body></html>" 100) 0 =
        some NodeKind.Document
    ∧ firstChildAt (constructTree "<html><head></head><body></body></html>" 100) 0 =
        some (some 1)
    ∧ kindAt (constructTree "<html><head></head><body></body></html>" 100) 1 =
        some (NodeKind.Element ⟨ElementKind.Html, []⟩)
    ∧ firstChildAt (constructTree "<html><head></head><body></body></html>" 100) 1 =
        some (some 2)
    ∧ kindAt (constructTree "<html><head></head><body></body></html>" 100) 2 =
        some (NodeKind.Element ⟨ElementKind.Head, []⟩)
    ∧ nextSiblingAt (constructTree "<html><head></head><body></body></html>" 100) 2 =
        some (some 3)
    ∧ kindAt (constructTree "<html><head></head><body></body></html>" 100) 3 =
        some (NodeKind.Element ⟨ElementKind.Body, []⟩)
    ∧ firstChildAt (constructTree "<html><head></head><body></body></html>" 100) 2 =
        some none
    ∧ firstChildAt (constructTree "<html><head></head><body></body></html>" 100) 3 =
        some none :=
  ⟨rfl, rfl, rfl, rfl, rfl, rfl, rfl, rfl, rfl⟩

/-- Claim C9, counterexample: the space character token processed in the
`InHead` mode of `"<html><head> </head><body></body></html>"` does NOT
become part of any Text node — the build succeeds and the finished tree
contains no Text node at all (`insert_char` drops whitespace when the top of
the open-element stack is not already a Text node). -/
theorem inHead_space_not_inserted_as_text :
    ((constructTree "<html><head> </head><body></body></html>" 100).storeOf.map
      (fun st => st.any (fun n => n.kind.isTextB))) = some false := rfl

/-- The nine tag names `ElementKind::from_str` recognizes. -/
def elementNames : List String :=
  ["html", "head", "style", "script", "body", "p", "h1", "h2", "a"]

theorem mk?_isSome_eq_fromStr_isOk (s : String) (attrs : List Attribute) :
    (Element.mk? s attrs).isSome = (ElementKind.fromStr s).isOk := by
  unfold Element.mk?
  cases h : ElementKind.fromStr s <;> simp [Except.isOk, Except.toBool]

/-- Claim C7: `ElementKind::from_str` succeeds exactly on the nine lowercase
names `html`, `head`, `style`, `script`, `body`, `p`, `h1`, `h2`, `a`, and
`Element::new` (whose `expect` is modelled by `Element.mk?` returning
`none`) fails to construct an element for every other name instead of
substituting a default kind. -/
theorem elementKind_fromStr_closed (s : String) (attrs : List Attribute) :
    ((ElementKind.fromStr s).isOk = true ↔ s ∈ elementNames)
    ∧ ((Element.mk? s attrs).isSome = true ↔ s ∈ elementNames) := by
  have key : (ElementKind.fromStr s).isOk = true ↔ s ∈ elementNames := by
    unfold ElementKind.fromStr elementNames
    split_ifs with h1 h2 h3 h4 h5 h6 h7 h8 h9 <;> simp_all [Except.isOk, Except.toBool]
  exact ⟨key, by rw [mk?_isSome_eq_fromStr_isOk]; exact key⟩

/-- A `next` call on a tokenizer sitting in the `Data` state on a
non-`'<'` character emits that character as a `Char` token and advances. -/
theorem next_data_char (input : List Char) (pos : Nat) (buf : String) (c : Char)
    (hget : input[pos]? = some c) (hc : c ≠ '<') :
    HtmlTokenizer.next ⟨State.Data, pos, false, none, input, buf⟩ =
      NextRes.emit (HtmlToken.Char c) ⟨State.Data, pos + 1, false, none, input, buf⟩ := by
  have hlt : pos < input.length := by
    rcases List.getElem?_eq_some.mp hget with ⟨h, _⟩
    exact h
  show (if pos ≥ input.length then NextRes.none
        else nextl (3 * (input.length + 2)) ⟨State.Data, pos, false, none, input, buf⟩) = _
  rw [if_neg (by omega)]
  have hk : 3 * (input.length + 2) = (3 * input.length + 5) + 1 := by ring
  rw [hk]
  show (match getChar ⟨State.Data, pos, false, none, input, buf⟩ with
        | none => NextRes.panic
        | some (c, tk) =>
          match tokStep c tk with
          | TokStepRes.cont tk => nextl (3 * input.length + 5) tk
          | TokStepRes.emit t tk => NextRes.emit t tk
          | TokStepRes.panic => NextRes.panic) = _
  have hgc : getChar ⟨State.Data, pos, false, none, input, buf⟩ =
      some (c, ⟨State.Data, pos + 1, false, none, input, buf⟩) := by
    unfold getChar
    simp only [Bool.false_eq_true, if_false, hget]
  rw [hgc]
  have hne : ¬(pos + 1 > input.length) := by omega
  simp [tokStep, HtmlTokenizer.isEof, hc, hne]

/-- One unfolding of `collect`. -/
theorem collect_succ (fuel : Nat) (tk : HtmlTokenizer) :
    collect (fuel + 1) tk =
      match tk.next with
      | NextRes.none => ([], TermKind.ended)
      | NextRes.panic => ([], TermKind.panicked)
      | NextRes.stuck => ([], TermKind.stuck)
      | NextRes.emit t tk2 => (t :: (collect fuel tk2).1, (collect fuel tk2).2) := rfl

/-- Driving the tokenizer over a `'<'`-free tail of the input collects one
`Char` token per character and ends normally. -/
theorem collect_data_all_chars :
    ∀ (k pos : Nat) (input : List Char) (buf : String),
      input.length = pos + k →
      (∀ i c, pos ≤ i → input[i]? = some c → c ≠ '<') →
      collect (k + 1) ⟨State.Data, pos, false, none, input, buf⟩ =
        ((input.drop pos).map HtmlToken.Char, TermKind.ended) := by
  intro k
  induction k with
  | zero =>
    intro pos input buf hlen _
    have hnext : HtmlTokenizer.next ⟨State.Data, pos, false, none, input, buf⟩ =
        NextRes.none := by
      show (if pos ≥ input.length then NextRes.none
            else nextl (3 * (input.length + 2)) ⟨State.Data, pos, false, none, input, buf⟩) = _
      rw [if_pos (by omega)]
    rw [collect_succ, hnext]
    rw [List.drop_eq_nil_of_le (by omega)]
    rfl
  | succ k ih =>
    intro pos input buf hlen hno
    have hpos : pos < input.length := by omega
    have hget : input[pos]? = some input[pos] := List.getElem?_eq_getElem hpos
    have hc : input[pos] ≠ '<' := hno pos _ (Nat.le_refl _) hget
    rw [collect_succ, next_data_char input pos buf _ hget hc]
    simp only []
    rw [ih (pos + 1) input buf (by omega) (fun i c hi hg => hno i c (by omega) hg)]
    rw [List.drop_eq_getElem_cons hpos]
    rfl

/-- Claim C5, amended: on `'<'`-free input the iterator yields exactly one
`Char` token per input character, in order, and then the stream simply ends
(`next` returns `None`); no `EOF` token is emitted. -/
theorem tokenStream_no_lt_chars (s : String) (h : ∀ c ∈ s.data, c ≠ '<') :
    tokenStream s (s.data.length + 1) = (s.data.map HtmlToken.Char, TermKind.ended) := by
  unfold tokenStream HtmlTokenizer.new
  have := collect_data_all_chars s.data.length 0 s.data "" (by omega)
    (fun i c _ hg => h c (List.getElem?_mem hg))
  simpa using this

/-- Witness for the amended claim C5 at the concrete `'<'`-free input
`"ab"`. -/
theorem tokenStream_no_lt_chars_witness :
    (∀ c ∈ ("ab" : String).data, c ≠ '<')
    ∧ tokenStream "ab" 3 = ([HtmlToken.Char 'a', HtmlToken.Char 'b'], TermKind.ended) :=
  ⟨by decide, tokenStream_no_lt_chars "ab" (by decide)⟩

/-- Claim C5, counterexample: on input `"a"` the stream is the single
`Char 'a'` — the iterator then returns `None`; it is NOT followed by an
`EOF` token (the `is_eof` guard `pos > input.len()` can never hold, so
`HtmlToken::EOF` is unreachable). -/
theorem no_eof_token_after_chars :
    tokenStream "a" 2 = ([HtmlToken.Char 'a'], TermKind.ended)
    ∧ HtmlToken.EOF ∉ (tokenStream "a" 2).1 := by
  constructor
  · rfl
  · intro hmem
    simp only [show tokenStream "a" 2 = ([HtmlToken.Char 'a'], TermKind.ended) from rfl] at hmem
    simp at hmem

/-- Whether the node on top of the open-element stack is a Text node. -/
def topOfStackIsTextB (p : HtmlParser) : Bool :=
  match p.stack.getLast? with
  | none => false
  | some i =>
    match p.store[i]? with
    | some n => n.kind.isTextB
    | none => false

/-- Claim C9, amended: a space/newline character handed to `insert_char`
(as the `InHead`/`AfterHead` arms do) is appended to the Text node on top of
the open-element stack when there is one, and otherwise silently discarded —
no new Text node is ever created for whitespace. -/
theorem insertChar_whitespace_dropped_or_merged (p : HtmlParser) (c : Char)
    (hc : c = ' ' ∨ c = '\n') :
    (topOfStackIsTextB p = false → insertChar p c = p)
    ∧ (∀ i n s, p.stack.getLast? = some i → p.store[i]? = some n →
        n.kind = NodeKind.Text s →
        insertChar p c =
          { p with store := p.store.set i { n with kind := NodeKind.Text (s.push c) } }) := by
  have hws : c = '\n' ∨ c = ' ' := hc.symm
  constructor
  · intro h
    cases hl : p.stack.getLast? with
    | none => simp [insertChar, hl]
    | some i =>
      cases hg : p.store[i]? with
      | none => simp [insertChar, hl, hg]
      | some n =>
        have h2 : n.kind.isTextB = false := by
          simpa [topOfStackIsTextB, hl, hg] using h
        cases hk : n.kind with
        | Text s => rw [hk] at h2; simp [NodeKind.isTextB] at h2
        | Document => simp [insertChar, hl, hg, hk, if_pos hws]
        | Element e => simp [insertChar, hl, hg, hk, if_pos hws]
  · intro i n s hl hg hk
    simp [insertChar, hl, hg, hk]

/-- A concrete parser whose open-element stack has an (element) `head` node
on top. -/
def pW9 : HtmlParser :=
  ⟨[Node.new NodeKind.Document, Node.new (NodeKind.Element ⟨ElementKind.Head, []⟩)],
   InsertionMode.InHead, InsertionMode.Initial, [1], HtmlTokenizer.new ""⟩

/-- Witness for the amended claim C9: with the `head` element on top of the
stack, `insert_char ' '` leaves the parser unchanged. -/
theorem insertChar_whitespace_dropped_or_merged_witness :
    insertChar pW9 ' ' = pW9 :=
  (insertChar_whitespace_dropped_or_merged pW9 ' ' (Or.inl rfl)).1 rfl

/-- Claim C10: when the insertion target `i` (top of the open-element stack)
already has a first child `fc` with a further sibling `c2`, `insert_char`
splices the new Text node in as the next sibling of the FIRST child `fc`
(leaving the new node with no next sibling, so `c2` is cut out of the
forward sibling chain and `c2`'s own record is untouched), whereas
`insert_element` walks to the LAST sibling `c2` and appends the new node
after it, leaving `fc` unchanged. -/
theorem insertChar_clobbers_first_child_sibling
    (p : HtmlParser) (i fc c2 : Nat) (node n1 n2 : Node) (c : Char)
    (hl : p.stack.getLast? = some i)
    (hi : p.store[i]? = some node)
    (hnt : node.kind.isTextB = false)
    (hcc : ¬(c = '\n' ∨ c = ' '))
    (hfc : node.firstChild = some fc)
    (h1 : p.store[fc]? = some n1)
    (h12 : n1.nextSibling = some c2)
    (h2 : p.store[c2]? = some n2)
    (h2e : n2.nextSibling = none)
    (hfi : fc ≠ i) (h2i : c2 ≠ i) (h12ne : fc ≠ c2) :
    ((insertChar p c).store[fc]? = some { n1 with nextSibling := some p.store.length }
     ∧ (insertChar p c).store[p.store.length]? =
         some { Node.new (NodeKind.Text (String.push "" c)) with
                  parent := some i, prevSibling := some fc }
     ∧ (insertChar p c).store[c2]? = some n2)
    ∧ (∀ tag attrs q, insertElement p tag attrs = some q →
        q.store[c2]? = some { n2 with nextSibling := some p.store.length }
        ∧ q.store[fc]? = some n1) := by
  have hilen : i < p.store.length := (List.getElem?_eq_some.mp hi).1
  have hfclen : fc < p.store.length := (List.getElem?_eq_some.mp h1).1
  have hc2len : c2 < p.store.length := (List.getElem?_eq_some.mp h2).1
  constructor
  · -- the insert_char half
    set L := p.store.length with hL
    set tnode := Node.new (NodeKind.Text (String.push "" c)) with htnode
    set store0 := p.store ++ [tnode] with hstore0
    have hs0fc : store0[fc]? = some n1 := by
      rw [hstore0, List.getElem?_append_left hfclen]; exact h1
    have hs0c2 : store0[c2]? = some n2 := by
      rw [hstore0, List.getElem?_append_left hc2len]; exact h2
    have hs0i : store0[i]? = some node := by
      rw [hstore0, List.getElem?_append_left hilen]; exact hi
    have hs0n : store0[L]? = some tnode := by
      rw [hstore0, hL]; exact List.getElem?_concat_length _ _
    have hs0len : store0.length = L + 1 := by simp [hstore0]
    set v1 : Node := { n1 with nextSibling := some L } with hv1
    set store1 := store0.set fc v1 with hstore1
    have hs1n : store1[L]? = some tnode := by
      rw [hstore1, List.getElem?_set_ne (by omega)]; exact hs0n
    set v2 : Node := { tnode with prevSibling := some fc } with hv2
    set store2 := store1.set L v2 with hstore2
    have hs2i : store2[i]? = some node := by
      rw [hstore2, List.getElem?_set_ne (by omega), hstore1,
        List.getElem?_set_ne (by omega)]
      exact hs0i
    set v3 : Node := { node with lastChild := some L } with hv3
    set store3 := store2.set i v3 with hstore3
    have hs3n : store3[L]? = some v2 := by
      rw [hstore3, List.getElem?_set_ne (by omega), hstore2,
        List.getElem?_set_self (by simp [hstore1, hs0len])]
    set v4 : Node := { v2 with parent := some i } with hv4
    set store4 := store3.set L v4 with hstore4
    have hred : (insertChar p c).store = store4 := by
      have hmn1 : modifyNode store0 fc (fun m => { m with nextSibling := some L }) = store1 := by
        rw [modifyNode.eq_def, hs0fc]
      have hmn2 : modifyNode store1 L (fun m => { m with prevSibling := some fc }) = store2 := by
        rw [modifyNode.eq_def, hs1n]
      have hmn3 : modifyNode store2 i (fun m => { m with lastChild := some L }) = store3 := by
        rw [modifyNode.eq_def, hs2i]
      have hmn4 : modifyNode store3 L (fun m => { m with parent := some i }) = store4 := by
        rw [modifyNode.eq_def, hs3n]
      cases hk : node.kind with
      | Text s => rw [hk] at hnt; simp [NodeKind.isTextB] at hnt
      | Document =>
        simp only [insertChar, hl, hi, hk, hfc, if_neg hcc, ← hL, ← htnode, ← hstore0,
          hmn1, hmn2, hmn3, hmn4]
      | Element e =>
        simp only [insertChar, hl, hi, hk, hfc, if_neg hcc, ← hL, ← htnode, ← hstore0,
          hmn1, hmn2, hmn3, hmn4]
    rw [hred]
    refine ⟨?_, ?_, ?_⟩
    · rw [hstore4, List.getElem?_set_ne (by omega), hstore3,
        List.getElem?_set_ne (by omega), hstore2, List.getElem?_set_ne (by omega),
        hstore1, List.getElem?_set_self (by omega)]
    · rw [hstore4, List.getElem?_set_self (by simp [hstore3, hstore2, hstore1, hs0len])]
    · rw [hstore4, List.getElem?_set_ne (by omega), hstore3,
        List.getElem?_set_ne (by omega), hstore2, List.getElem?_set_ne (by omega),
        hstore1, List.getElem?_set_ne (by omega)]
      exact hs0c2
  · -- the insert_element half
    intro tag attrs q he
    cases hm : Element.mk? tag attrs with
    | none => rw [insertElement.eq_def, hm] at he; simp at he
    | some elem =>
      set L := p.store.length with hL
      set enode := Node.new (NodeKind.Element elem) with henode
      set store0 := p.store ++ [enode] with hstore0
      have hs0fc : store0[fc]? = some n1 := by
        rw [hstore0, List.getElem?_append_left hfclen]; exact h1
      have hs0c2 : store0[c2]? = some n2 := by
        rw [hstore0, List.getElem?_append_left hc2len]; exact h2
      have hs0i : store0[i]? = some node := by
        rw [hstore0, List.getElem?_append_left hilen]; exact hi
      have hs0n : store0[L]? = some enode := by
        rw [hstore0, hL]; exact List.getElem?_concat_length _ _
      have hs0len : store0.length = L + 1 := by simp [hstore0]
      have hwalk : lastSibling (store0.length + 1) store0 fc = some c2 := by
        rw [hs0len]
        show lastSibling (L + 1 + 1) store0 fc = some c2
        rw [lastSibling.eq_def]
        simp only [hs0fc, h12]
        rw [lastSibling.eq_def]
        simp only [hs0c2, h2e]
      set v1 : Node := { n2 with nextSibling := some L } with hv1
      set store1 := store0.set c2 v1 with hstore1
      have hs1n : store1[L]? = some enode := by
        rw [hstore1, List.getElem?_set_ne (by omega)]; exact hs0n
      set v2 : Node := { enode with prevSibling := some c2 } with hv2
      set store2 := store1.set L v2 with hstore2
      have hs2i : store2[i]? = some node := by
        rw [hstore2, List.getElem?_set_ne (by omega), hstore1,
          List.getElem?_set_ne (by omega)]
        exact hs0i
      set v3 : Node := { node with lastChild := some L } with hv3
      set store3 := store2.set i v3 with hstore3
      have hs3n : store3[L]? = some v2 := by
        rw [hstore3, List.getElem?_set_ne (by omega), hstore2,
          List.getElem?_set_self (by simp [hstore1, hs0len])]
      set v4 : Node := { v2 with parent := some i } with hv4
      set store4 := store3.set L v4 with hstore4
      have hmn1 : modifyNode store0 c2 (fun m => { m with nextSibling := some L }) = store1 := by
        rw [modifyNode.eq_def, hs0c2]
      have hmn2 : modifyNode store1 L (fun m => { m with prevSibling := some c2 }) = store2 := by
        rw [modifyNode.eq_def, hs1n]
      have hmn3 : modifyNode store2 i (fun m => { m with lastChild := some L }) = store3 := by
        rw [modifyNode.eq_def, hs2i]
      have hmn4 : modifyNode store3 L (fun m => { m with parent := some i }) = store4 := by
        rw [modifyNode.eq_def, hs3n]
      rw [insertElement.eq_def, hm] at he
      simp only [hl, Option.getD_some, hi, Option.some_bind, hfc, ← hL, ← henode, ← hstore0,
        hwalk, hmn1, hmn2, hmn3, hmn4] at he
      have hq : q.store = store4 := by
        cases he with
        | refl => rfl
      rw [hq]
      constructor
      · rw [hstore4, List.getElem?_set_ne (by omega), hstore3,
          List.getElem?_set_ne (by omega), hstore2, List.getElem?_set_ne (by omega),
          hstore1, List.getElem?_set_self (by omega)]
      · rw [hstore4, List.getElem?_set_ne (by omega), hstore3,
          List.getElem?_set_ne (by omega), hstore2, List.getElem?_set_ne (by omega),
          hstore1, List.getElem?_set_ne (by omega)]
        exact hs0fc

/-- A concrete `body` element node with two Text children (ids 2 and 3). -/
def bodyW : Node :=
  ⟨NodeKind.Element ⟨ElementKind.Body, []⟩, some 0, some 2, some 3, none, none⟩

/-- First child of `bodyW`. -/
def t1W : Node := ⟨NodeKind.Text "x", some 1, none, none, none, some 3⟩

/-- Second child of `bodyW`. -/
def t2W : Node := ⟨NodeKind.Text "y", some 1, none, none, some 2, none⟩

/-- A concrete parser state with `bodyW` (two children) on top of the open
element stack. -/
def pW10 : HtmlParser :=
  ⟨[Node.new NodeKind.Document, bodyW, t1W, t2W],
   InsertionMode.InBody, InsertionMode.Initial, [1], HtmlTokenizer.new ""⟩

/-- Witness for claim C10 at the concrete two-children state: the first
child's `next_sibling` is redirected to the freshly created Text node
(id 4), clobbering the link to the second child. -/
theorem insertChar_clobbers_first_child_sibling_witness :
    (insertChar pW10 'z').store[2]? = some { t1W with nextSibling := some 4 } :=
  (insertChar_clobbers_first_child_sibling pW10 1 2 3 bodyW t1W t2W 'z'
    rfl rfl rfl (by decide) rfl rfl rfl rfl rfl
    (by decide) (by decide) (by decide)).1.1

/-- A string with no ASCII uppercase character. -/
def lowerStrB (s : String) : Bool := s.data.all (fun c => !isAsciiUpperB c)

/-- The tag name and all attribute names of a token contain no ASCII
uppercase character (trivially true for `Char`/`EOF` tokens). -/
def tokNamesLowerB : HtmlToken → Bool
  | HtmlToken.StartTag tag _ attrs => lowerStrB tag && attrs.all (fun a => lowerStrB a.name)
  | HtmlToken.EndTag tag => lowerStrB tag
  | _ => true

/-- The tokenizer's pending tag token (if any) has case-folded names. -/
def latestInvB (tk : HtmlTokenizer) : Bool :=
  match tk.latestToken with
  | some t => tokNamesLowerB t
  | none => true

theorem isAsciiUpperB_asciiLowerChar (c : Char) :
    isAsciiUpperB (asciiLowerChar c) = false := by
  unfold asciiLowerChar
  by_cases h : isAsciiUpperB c
  · rw [if_pos h]
    have h2 : 65 ≤ c.toNat ∧ c.toNat ≤ 90 := by
      simpa [isAsciiUpperB] using h
    have hv : (Char.ofNat (c.toNat + 32)).toNat = c.toNat + 32 := by
      unfold Char.ofNat
      rw [dif_pos (Or.inl (by omega))]
      rfl
    simp only [isAsciiUpperB, hv]
    simp only [Bool.and_eq_false_iff, decide_eq_false_iff_not]
    omega
  · rw [if_neg h]
    simpa using h

theorem lowerStrB_push (s : String) (c : Char) :
    lowerStrB (s.push c) = (lowerStrB s && !isAsciiUpperB c) := by
  simp [lowerStrB, String.data_push, List.all_append]

theorem latestInvB_createTag (tk : HtmlTokenizer) (b : Bool) :
    latestInvB (createTag tk b) = true := by
  cases b <;> simp [createTag, latestInvB, tokNamesLowerB, lowerStrB]

theorem takeLatestToken_inv (tk : HtmlTokenizer) (t : HtmlToken) (tk2 : HtmlTokenizer)
    (h : latestInvB tk = true) (ht : takeLatestToken tk = some (t, tk2)) :
    tokNamesLowerB t = true ∧ latestInvB tk2 = true := by
  unfold takeLatestToken at ht
  cases hl : tk.latestToken with
  | none => rw [hl] at ht; simp at ht
  | some t0 =>
    rw [hl] at ht
    simp only [Option.some.injEq, Prod.mk.injEq] at ht
    obtain ⟨rfl, rfl⟩ := ht
    constructor
    · simpa [latestInvB, hl] using h
    · simp [latestInvB]

theorem appendTagName_inv (tk : HtmlTokenizer) (c : Char) (tk2 : HtmlTokenizer)
    (h : latestInvB tk = true) (hc : isAsciiUpperB c = false)
    (ha : appendTagName tk c = some tk2) : latestInvB tk2 = true := by
  unfold appendTagName at ha
  cases hl : tk.latestToken with
  | none => rw [hl] at ha; simp at ha
  | some t0 =>
    rw [hl] at ha
    cases t0 with
    | StartTag tag sc attrs =>
      simp only [Option.some.injEq] at ha
      subst ha
      have h2 : lowerStrB tag = true ∧ attrs.all (fun a => lowerStrB a.name) = true := by
        simpa [latestInvB, hl, tokNamesLowerB] using h
      simp [latestInvB, tokNamesLowerB, lowerStrB_push, hc, h2.1, h2.2]
    | EndTag tag =>
      simp only [Option.some.injEq] at ha
      subst ha
      have h2 : lowerStrB tag = true := by
        simpa [latestInvB, hl, tokNamesLowerB] using h
      simp [latestInvB, tokNamesLowerB, lowerStrB_push, hc, h2]
    | Char c2 => simp at ha
    | EOF => simp at ha

theorem startNewAttribute_inv (tk : HtmlTokenizer) (tk2 : HtmlTokenizer)
    (h : latestInvB tk = true) (ha : startNewAttribute tk = some tk2) :
    latestInvB tk2 = true := by
  unfold startNewAttribute at ha
  cases hl : tk.latestToken with
  | none => rw [hl] at ha; simp at ha
  | some t0 =>
    rw [hl] at ha
    cases t0 with
    | StartTag tag sc attrs =>
      simp only [Option.some.injEq] at ha
      subst ha
      have h2 : lowerStrB tag = true ∧ attrs.all (fun a => lowerStrB a.name) = true := by
        simpa [latestInvB, hl, tokNamesLowerB] using h
      simp only [latestInvB, tokNamesLowerB, List.all_append]
      rw [h2.1, h2.2]
      decide
    | EndTag tag => simp at ha
    | Char c2 => simp at ha
    | EOF => simp at ha

theorem appendAttrLast_names (c : Char) (isName : Bool) :
    ∀ (l l2 : List Attribute), appendAttrLast c isName l = some l2 →
      (isName = true → isAsciiUpperB c = false) →
      l.all (fun a => lowerStrB a.name) = true →
      l2.all (fun a => lowerStrB a.name) = true := by
  intro l
  induction l with
  | nil => intro l2 h _ _; simp [appendAttrLast] at h
  | cons a rest ih =>
    intro l2 h hc hall
    cases rest with
    | nil =>
      simp only [appendAttrLast, Option.some.injEq] at h
      subst h
      simp only [List.all_cons, Bool.and_eq_true] at hall
      cases hn : isName with
      | true =>
        simp [hn, Attribute.addName, lowerStrB_push, hall.1, hc hn]
      | false =>
        simp [hn, Attribute.addValue, hall.1]
    | cons b rest2 =>
      simp only [appendAttrLast] at h
      cases hh : appendAttrLast c isName (b :: rest2) with
      | none => rw [hh] at h; simp at h
      | some l3 =>
        rw [hh] at h
        simp only [Option.some.injEq] at h
        subst h
        rw [List.all_cons, Bool.and_eq_true] at hall ⊢
        exact ⟨hall.1, ih l3 hh hc hall.2⟩

theorem appendAttribute_inv (tk : HtmlTokenizer) (c : Char) (isName : Bool)
    (tk2 : HtmlTokenizer) (h : latestInvB tk = true)
    (hc : isName = true → isAsciiUpperB c = false)
    (ha : appendAttribute tk c isName = some tk2) : latestInvB tk2 = true := by
  unfold appendAttribute at ha
  cases hl : tk.latestToken with
  | none => rw [hl] at ha; simp at ha
  | some t0 =>
    rw [hl] at ha
    cases t0 with
    | StartTag tag sc attrs =>
      dsimp only at ha
      cases hh : appendAttrLast c isName attrs with
      | none => rw [hh] at ha; simp at ha
      | some attrs2 =>
        rw [hh] at ha
        simp only [Option.some.injEq] at ha
        subst ha
        have h2 : lowerStrB tag = true ∧ attrs.all (fun a => lowerStrB a.name) = true := by
          simpa [latestInvB, hl, tokNamesLowerB] using h
        simp [latestInvB, tokNamesLowerB, h2.1,
          appendAttrLast_names c isName attrs attrs2 hh hc h2.2]
    | EndTag tag => simp at ha
    | Char c2 => simp at ha
    | EOF => simp at ha

theorem setSelfClosingFlag_inv (tk : HtmlTokenizer) (tk2 : HtmlTokenizer)
    (h : latestInvB tk = true) (ha : setSelfClosingFlag tk = some tk2) :
    latestInvB tk2 = true := by
  unfold setSelfClosingFlag at ha
  cases hl : tk.latestToken with
  | none => rw [hl] at ha; simp at ha
  | some t0 =>
    rw [hl] at ha
    cases t0 with
    | StartTag tag sc attrs =>
      simp only [Option.some.injEq] at ha
      subst ha
      have h2 : lowerStrB tag = true ∧ attrs.all (fun a => lowerStrB a.name) = true := by
        simpa [latestInvB, hl, tokNamesLowerB] using h
      simp [latestInvB, tokNamesLowerB, h2.1, h2.2]
    | EndTag tag => simp at ha
    | Char c2 => simp at ha
    | EOF => simp at ha

/-- One tokenizer loop iteration preserves the case-folded-names invariant
of the pending token, and only emits tokens satisfying it. -/
theorem tokStep_inv (c : Char) (tk : HtmlTokenizer) (h : latestInvB tk = true) :
    match tokStep c tk with
    | TokStepRes.cont tk2 => latestInvB tk2 = true
    | TokStepRes.emit t tk2 => tokNamesLowerB t = true ∧ latestInvB tk2 = true
    | TokStepRes.panic => True := by
  obtain ⟨st, pos, rec, lt, inp, buf⟩ := tk
  cases st <;> simp only [tokStep] <;> split <;> rename_i heq
  all_goals try trivial
  all_goals repeat' split at heq
  all_goals try (cases heq)
  all_goals try trivial
  all_goals first
    | (rename_i hx
       first
         | exact takeLatestToken_inv _ _ _ (by simpa [latestInvB] using h) hx
         | exact appendTagName_inv _ _ _ (by simpa [latestInvB] using h)
             (isAsciiUpperB_asciiLowerChar c) hx
         | exact appendTagName_inv _ _ _ (by simpa [latestInvB] using h) (by simp_all) hx
         | exact startNewAttribute_inv _ _ (by simpa [latestInvB] using h) hx
         | exact appendAttribute_inv _ _ _ _ (by simpa [latestInvB] using h)
             (fun _ => isAsciiUpperB_asciiLowerChar c) hx
         | exact appendAttribute_inv _ _ _ _ (by simpa [latestInvB] using h)
             (fun hab => absurd hab (by decide)) hx)
    | (rename_i u1 tkx hx1 u2 hx2
       exact takeLatestToken_inv _ _ _
         (by simpa [latestInvB] using
           setSelfClosingFlag_inv _ _ (by simpa [latestInvB] using h) hx1) hx2)

/-- Fetching the current character never touches the pending token. -/
theorem getChar_latestToken (tk : HtmlTokenizer) (c : Char) (tk2 : HtmlTokenizer)
    (h : getChar tk = some (c, tk2)) : tk2.latestToken = tk.latestToken := by
  unfold getChar at h
  repeat' split at h
  all_goals simp_all
  all_goals obtain ⟨rfl, rfl⟩ := h
  all_goals rfl

/-- The `next` loop only emits tokens with case-folded names, and preserves
the pending-token invariant. -/
theorem nextl_inv : ∀ (fuel : Nat) (tk : HtmlTokenizer), latestInvB tk = true →
    ∀ t tk2, nextl fuel tk = NextRes.emit t tk2 →
      tokNamesLowerB t = true ∧ latestInvB tk2 = true := by
  intro fuel
  induction fuel with
  | zero => intro tk h t tk2 he; simp [nextl] at he
  | succ n ih =>
    intro tk h t tk2 he
    rw [nextl] at he
    cases hg : getChar tk with
    | none => rw [hg] at he; simp at he
    | some p =>
      obtain ⟨c, tk1⟩ := p
      rw [hg] at he
      dsimp only at he
      have h1 : latestInvB tk1 = true := by
        have h3 := getChar_latestToken tk c tk1 hg
        simpa [latestInvB, h3] using h
      have h2 := tokStep_inv c tk1 h1
      cases ht : tokStep c tk1 with
      | cont tk3 =>
        rw [ht] at he h2
        dsimp only at he h2
        exact ih tk3 h2 t tk2 he
      | emit t3 tk3 =>
        rw [ht] at he h2
        dsimp only at he h2
        simp only [NextRes.emit.injEq] at he
        obtain ⟨rfl, rfl⟩ := he
        exact h2
      | panic => rw [ht] at he; simp at he

/-- `Iterator::next` only emits tokens with case-folded names. -/
theorem next_inv (tk : HtmlTokenizer) (h : latestInvB tk = true) (t : HtmlToken)
    (tk2 : HtmlTokenizer) (he : tk.next = NextRes.emit t tk2) :
    tokNamesLowerB t = true ∧ latestInvB tk2 = true := by
  unfold HtmlTokenizer.next at he
  split at he
  · simp at he
  · exact nextl_inv _ tk h t tk2 he

/-- Every token in a collected stream has case-folded names. -/
theorem collect_inv : ∀ (fuel : Nat) (tk : HtmlTokenizer), latestInvB tk = true →
    (collect fuel tk).1.all tokNamesLowerB = true := by
  intro fuel
  induction fuel with
  | zero => intro tk h; rfl
  | succ n ih =>
    intro tk h
    rw [collect_succ]
    cases he : tk.next with
    | none => rfl
    | panic => rfl
    | stuck => rfl
    | emit t tk2 =>
      have h2 := next_inv tk h t tk2 he
      simp only [List.all_cons, Bool.and_eq_true]
      exact ⟨h2.1, ih tk2 h2.2⟩

/-- Claim C8: on every input the tokenizer case-folds tag names and
attribute names to ASCII lowercase (no emitted tag token contains an ASCII
uppercase letter in its tag or attribute names), while attribute values are
left unchanged — in particular `<P CLASS="X">` tokenizes to a start tag
named `p` with the single attribute `class` whose value keeps the uppercase
`X`. -/
theorem tokenizer_casefolds_names :
    (∀ (input : String) (fuel : Nat),
      (tokenStream input fuel).1.all tokNamesLowerB = true)
    ∧ tokenStream "<P CLASS=\"X\">" 5 =
        ([HtmlToken.StartTag "p" false [⟨"class", "X"⟩]], TermKind.ended) := by
  constructor
  · intro input fuel
    exact collect_inv fuel (HtmlTokenizer.new input) rfl
  · rfl

/-- Witness for claim C1 at a concrete fuel value. -/
theorem beforeHtml_unconsumed_token_loops_forever_witness :
    constructTree "<head>" 5 = POutcome.outOfFuel :=
  beforeHtml_unconsumed_token_loops_forever 5

/-- Witness for claim C7 at the concrete names `"html"` and `"div"`. -/
theorem elementKind_fromStr_closed_witness :
    (((ElementKind.fromStr "html").isOk = true ↔ "html" ∈ elementNames)
      ∧ ((Element.mk? "html" []).isSome = true ↔ "html" ∈ elementNames))
    ∧ (((ElementKind.fromStr "div").isOk = true ↔ "div" ∈ elementNames)
      ∧ ((Element.mk? "div" []).isSome = true ↔ "div" ∈ elementNames)) :=
  ⟨elementKind_fromStr_closed "html" [], elementKind_fromStr_closed "div" []⟩

/-- Witness for claim C8 at a concrete input. -/
theorem tokenizer_casefolds_names_witness :
    (tokenStream "<P CLASS=\"X\">" 5).1.all tokNamesLowerB = true :=
  tokenizer_casefolds_names.1 "<P CLASS=\"X\">" 5

end Saba
